import Mathlib

/-!
Verification of the catalog reconciliation engine of the ios-vibe-localizer
action: a shallow embedding of `analyzeStringsForTranslation`
(src/helpers/stringAnalyzer.ts) and of the merge loop of `run()` (index.ts),
together with proofs of the specified properties.

JavaScript objects are modelled as association lists `List (String × _)`
(JS object keys are unique and iteration order is insertion order);
optional / possibly-`undefined` fields are modelled with `Option`.
-/

set_option maxHeartbeats 1000000

namespace VibeLocalizer

/-- A `stringUnit` object: `{ state, value }`, both fields possibly absent. -/
structure StringUnit where
  state : Option String
  value : Option String
deriving Repr, DecidableEq

/-- A per-language localization entry: `{ stringUnit }`. -/
structure LocalizationEntry where
  stringUnit : Option StringUnit
deriving Repr, DecidableEq

/-- One catalog entry: `{ comment?, shouldTranslate?, extractionState?, localizations? }`. -/
structure StringEntry where
  comment : Option String
  shouldTranslate : Option Bool
  extractionState : Option String
  localizations : Option (List (String × LocalizationEntry))
deriving Repr, DecidableEq

/-- The parsed xcstrings document: `{ sourceLanguage, strings }`. -/
structure XCStrings where
  sourceLanguage : Option String
  strings : List (String × StringEntry)
deriving Repr, DecidableEq

/-- A `TranslationRequest` batch unit: `{ key, text, targetLanguages, comment }`. -/
structure TranslationRequest where
  key : String
  text : String
  targetLanguages : List String
  comment : Option String
deriving Repr, DecidableEq

/-- The per-key value stored in `stringTranslationMap`:
`{ languages: string[], isNew: Map<string, boolean> }`. -/
structure TranslationNeedRecord where
  languages : List String
  isNew : List (String × Bool)
deriving Repr, DecidableEq

/-- The record returned by `analyzeStringsForTranslation`.  The
`translationChanges` object is flattened into the `added`, `updated` and
`staleRemoved` fields. -/
structure StringAnalysisResult where
  translationRequests : List TranslationRequest
  added : List String
  updated : List String
  staleRemoved : List String
  stringTranslationMap : List (String × TranslationNeedRecord)
  modifiedXcstringsData : XCStrings
  xcstringsModified : Bool
  fallbackToKeyCount : Nat
deriving Repr, DecidableEq

/-! ## The deep copy  (`JSON.parse(JSON.stringify(xcstringsData))`)

The JSON round trip rebuilds every node of the document value-wise; on the
modelled (already well-typed) document it is a structural clone. -/

/-- Clone of a `stringUnit` node. -/
def copyStringUnit (u : StringUnit) : StringUnit :=
  { state := u.state, value := u.value }

/-- Clone of a localization-entry node. -/
def copyLocalizationEntry (l : LocalizationEntry) : LocalizationEntry :=
  { stringUnit := l.stringUnit.map copyStringUnit }

/-- Clone of a catalog-entry node. -/
def copyStringEntry (e : StringEntry) : StringEntry :=
  { comment := e.comment
    shouldTranslate := e.shouldTranslate
    extractionState := e.extractionState
    localizations := e.localizations.map (fun locs =>
      locs.map (fun p => (p.1, copyLocalizationEntry p.2))) }

/-- The deep copy taken on the first line of `analyzeStringsForTranslation`:
`JSON.parse(JSON.stringify(xcstringsData))`. -/
def jsonDeepCopy (x : XCStrings) : XCStrings :=
  { sourceLanguage := x.sourceLanguage
    strings := x.strings.map (fun p => (p.1, copyStringEntry p.2)) }

/-! ## The analyzer  (`analyzeStringsForTranslation`)

The source is a single `for (const key in …)` loop whose body appends to
several independent accumulators (`translationRequests`, `staleRemoved`,
`stringTranslationMap`, the working catalog, the modified flag and the
fallback counter).  Each accumulator is embedded as its own pass over the
entry list; per entry, every definition below mirrors the corresponding
fragment of the loop body. -/

/-- Whitespace in the sense of JavaScript's `String.prototype.trim`
(space, tab, line terminators, vertical tab, form feed, NBSP …; the
characters occurring in catalogs in practice). -/
def isJsWhitespace (c : Char) : Bool :=
  c == ' ' || c == '\t' || c == '\n' || c == '\r' ||
  c == '\x0b' || c == '\x0c' || c == '\xa0'

/-- JavaScript's `value.trim()`: strip leading and trailing whitespace. -/
def jsTrim (s : String) : String :=
  ⟨((s.data.dropWhile isJsWhitespace).reverse.dropWhile isJsWhitespace).reverse⟩

/-- Test `currentStringEntry.extractionState === 'stale'`. -/
def isStale (e : StringEntry) : Bool :=
  e.extractionState == some "stale"

/-- Test `currentStringEntry.shouldTranslate === false`. -/
def isOptedOut (e : StringEntry) : Bool :=
  e.shouldTranslate == some false

/-- The `localizations` object after the normalization step
`if (!currentStringEntry.localizations) currentStringEntry.localizations = {}`. -/
def materializedLocs (e : StringEntry) : List (String × LocalizationEntry) :=
  e.localizations.getD []

/-- The per-language need test of the analyzer loop:
`isMissingOrEmpty || isNeedsReview` where
`isMissingOrEmpty = !targetStringUnit || !targetStringUnit.value || targetStringUnit.value.trim().length === 0`
and `isNeedsReview = targetStringUnit?.state === 'needs_review'`. -/
def needsTranslationForLang (locs : List (String × LocalizationEntry)) (lang : String) : Bool :=
  let targetStringUnit := (locs.lookup lang).bind (fun l => l.stringUnit)
  let isMissingOrEmpty :=
    match targetStringUnit with
    | none => true
    | some su =>
      match su.value with
      | none => true
      | some v => v == "" || (jsTrim v).length == 0
  let isNeedsReview :=
    match targetStringUnit with
    | none => false
    | some su => su.state == some "needs_review"
  isMissingOrEmpty || isNeedsReview

/-- The `languagesNeeded` array accumulated for one entry: the target
languages, in caller order, passing the need test. -/
def entryLanguagesNeeded (targetLanguages : List String) (e : StringEntry) : List String :=
  targetLanguages.filter (fun lang => needsTranslationForLang (materializedLocs e) lang)

/-- The `isNewMap` accumulated for one entry: for each needed language,
`isNewTranslation = !targetLocalization`. -/
def entryIsNewMap (targetLanguages : List String) (e : StringEntry) : List (String × Bool) :=
  (entryLanguagesNeeded targetLanguages e).map
    (fun lang => (lang, ((materializedLocs e).lookup lang).isNone))

/-- The source-text candidate
`currentStringEntry.localizations?.[sourceLanguageForText]?.stringUnit?.value?.trim()`
(undefined when no source-language hint was supplied). -/
def sourceTextCandidate (sourceLanguageForText : Option String) (e : StringEntry) :
    Option String :=
  sourceLanguageForText.bind (fun s =>
    ((((materializedLocs e).lookup s).bind (fun l => l.stringUnit)).bind
      (fun u => u.value)).map (fun v => jsTrim v))

/-- The fallback condition
`!sourceTextCandidate || sourceTextCandidate.length === 0`. -/
def useKeyFallback (sourceLanguageForText : Option String) (e : StringEntry) : Bool :=
  match sourceTextCandidate sourceLanguageForText e with
  | none => true
  | some v => v.length == 0

/-- Whether the loop body reaches the `if (languagesNeeded.length > 0)` block
for this entry: the entry is neither stale-removed nor opted out and at least
one target language needs translation. -/
def emitsRequest (targetLanguages : List String) (e : StringEntry) : Bool :=
  !isStale e && !isOptedOut e && !(entryLanguagesNeeded targetLanguages e).isEmpty

/-- The request the loop body pushes for one entry (none when the entry is
stale, opted out, or needs no language). -/
def entryRequest (targetLanguages : List String) (sourceLanguageForText : Option String)
    (p : String × StringEntry) : Option TranslationRequest :=
  if emitsRequest targetLanguages p.2 then
    some { key := p.1
           text := if useKeyFallback sourceLanguageForText p.2 then p.1
                   else (sourceTextCandidate sourceLanguageForText p.2).getD ""
           targetLanguages := entryLanguagesNeeded targetLanguages p.2
           comment := p.2.comment }
  else none

/-- The `stringTranslationMap` binding the loop body sets for one entry. -/
def entryNeedRecord (targetLanguages : List String) (p : String × StringEntry) :
    Option (String × TranslationNeedRecord) :=
  if emitsRequest targetLanguages p.2 then
    some (p.1, { languages := entryLanguagesNeeded targetLanguages p.2
                 isNew := entryIsNewMap targetLanguages p.2 })
  else none

/-- What the loop leaves of one entry in the working catalog: stale entries
are deleted, opted-out entries are left untouched, all other entries get
`localizations` materialized. -/
def processEntry (p : String × StringEntry) : Option (String × StringEntry) :=
  if isStale p.2 then none
  else if isOptedOut p.2 then some p
  else some (p.1, { p.2 with localizations := some (materializedLocs p.2) })

/-- The analyzer.  Mirrors `analyzeStringsForTranslation`: deep-copy the
input, then run the per-key loop; each field is the corresponding
accumulator's final value. -/
def analyzeStringsForTranslation (xcstringsData : XCStrings)
    (targetLanguages : List String) (sourceLanguageForText : Option String) :
    StringAnalysisResult :=
  let m := jsonDeepCopy xcstringsData
  { translationRequests := m.strings.filterMap (entryRequest targetLanguages sourceLanguageForText)
    added := []
    updated := []
    staleRemoved := (m.strings.filter (fun p => isStale p.2)).map Prod.fst
    stringTranslationMap := m.strings.filterMap (entryNeedRecord targetLanguages)
    modifiedXcstringsData :=
      { sourceLanguage := m.sourceLanguage
        strings := m.strings.filterMap processEntry }
    xcstringsModified := m.strings.any (fun p => isStale p.2)
    fallbackToKeyCount :=
      m.strings.countP (fun p =>
        emitsRequest targetLanguages p.2 && useKeyFallback sourceLanguageForText p.2) }

/-! ## The merger  (the response loop of `run()` in index.ts) -/

/-- One item of the provider's batch response: `{ key, translations }`. -/
structure TranslationResult where
  key : String
  translations : List (String × String)
deriving Repr, DecidableEq

/-- The mutable state the merge loop works on: the working catalog, the
`added` / `updated` ledgers and the warnings issued so far. -/
structure MergeState where
  catalog : XCStrings
  added : List String
  updated : List String
  warnings : List String
deriving Repr, DecidableEq

/-- The ledger identifier `` `${key} (${lang})` ``. -/
def changeKey (key lang : String) : String :=
  key ++ " (" ++ lang ++ ")"

/-- The value written by the merger: `{ state: "translated", value }`. -/
def translatedUnit (value : String) : StringUnit :=
  { state := some "translated", value := some value }

/-- Replace the binding of `lang` in a localization object (property write on
an existing property). -/
def updateLocalization (locs : List (String × LocalizationEntry)) (lang : String)
    (l : LocalizationEntry) : List (String × LocalizationEntry) :=
  locs.map (fun p => if p.1 == lang then (p.1, l) else p)

/-- The assignment `stringEntry.localizations![lang]!.stringUnit = {state:"translated", value}`.
The two `!` are compile-time-only assertions: at runtime, when `localizations`
is `undefined` or has no property `lang`, the assignment throws a `TypeError`
(modelled as `none`); it never creates the localization entry. -/
def setStringUnit (e : StringEntry) (lang value : String) : Option StringEntry :=
  match e.localizations with
  | none => none
  | some locs =>
    match locs.lookup lang with
    | none => none
    | some _ =>
      let locs' := updateLocalization locs lang { stringUnit := some (translatedUnit value) }
      some { e with localizations := some locs' }

/-- The body of the inner `for (const [lang, translatedValue] of Object.entries(...))`
loop, acting on `(stringEntry, added, updated)`. -/
def mergePair (key : String) (info : TranslationNeedRecord)
    (acc : StringEntry × List String × List String) (pair : String × String) :
    Except String (StringEntry × List String × List String) :=
  if info.languages.contains pair.1 then
    match setStringUnit acc.1 pair.1 pair.2 with
    | none => Except.error ("TypeError: cannot set stringUnit for language " ++ pair.1)
    | some e' =>
      if (info.isNew.lookup pair.1).getD false then
        Except.ok (e', acc.2.1 ++ [changeKey key pair.1], acc.2.2)
      else
        Except.ok (e', acc.2.1, acc.2.2 ++ [changeKey key pair.1])
  else
    Except.ok acc

/-- Write the (in JS: in-place mutated) entry back into the catalog object. -/
def updateCatalogEntry (strings : List (String × StringEntry)) (key : String)
    (e : StringEntry) : List (String × StringEntry) :=
  strings.map (fun p => if p.1 == key then (p.1, e) else p)

/-- The body of the outer `for (const translationResult of batchResponse.translations)`
loop: look the key up in the working catalog and in the need index; when
either is missing, warn and skip; otherwise apply every in-scope
`(lang, value)` pair. -/
def mergeTranslationResult (needIndex : List (String × TranslationNeedRecord))
    (st : MergeState) (tr : TranslationResult) : Except String MergeState :=
  match st.catalog.strings.lookup tr.key, needIndex.lookup tr.key with
  | some stringEntry, some info =>
    (tr.translations.foldlM (mergePair tr.key info) (stringEntry, st.added, st.updated)).map
      (fun acc =>
        { st with
          catalog := { st.catalog with
                       strings := updateCatalogEntry st.catalog.strings tr.key acc.1 }
          added := acc.2.1
          updated := acc.2.2 })
  | _, _ =>
    Except.ok { st with
      warnings := st.warnings ++ ["Received translation for unknown key: " ++ tr.key] }

/-- The whole merge loop over the provider response. -/
def mergeBatchResponse (needIndex : List (String × TranslationNeedRecord))
    (st : MergeState) (response : List TranslationResult) : Except String MergeState :=
  response.foldlM (mergeTranslationResult needIndex) st

/-- The merge state `run()` starts from: the analyzer's working catalog and
its (empty) `added` / `updated` ledgers. -/
def initialMergeState (res : StringAnalysisResult) : MergeState :=
  { catalog := res.modifiedXcstringsData
    added := res.added
    updated := res.updated
    warnings := [] }

/-- The observable outcome of one `run()` (the parts the downstream PR /
report steps consume). -/
structure PipelineOutcome where
  originalCatalog : XCStrings
  finalCatalog : XCStrings
  added : List String
  updated : List String
  staleRemoved : List String
  warnings : List String
deriving Repr, DecidableEq

/-- The reconciliation part of `run()`: analyze, then (when any request was
produced) merge the provider response.  `originalCatalog` is the caller's
catalog value threaded through unchanged: every deletion, normalization and
merge write happens on the analyzer's deep copy.  A `TypeError` in the merge
loop is caught by `run()`'s surrounding `try` and aborts the run. -/
def runPipeline (x : XCStrings) (targetLanguages : List String)
    (sourceLanguageForText : Option String) (response : List TranslationResult) :
    Except String PipelineOutcome :=
  let analysis := analyzeStringsForTranslation x targetLanguages sourceLanguageForText
  if analysis.translationRequests.length > 0 then
    match mergeBatchResponse analysis.stringTranslationMap (initialMergeState analysis) response with
    | Except.error e => Except.error e
    | Except.ok st =>
      Except.ok { originalCatalog := x
                  finalCatalog := st.catalog
                  added := st.added
                  updated := st.updated
                  staleRemoved := analysis.staleRemoved
                  warnings := st.warnings }
  else
    Except.ok { originalCatalog := x
                finalCatalog := analysis.modifiedXcstringsData
                added := analysis.added
                updated := analysis.updated
                staleRemoved := analysis.staleRemoved
                warnings := [] }

/-! ## Basic lemmas: the deep copy is a value-wise identity -/

theorem copyStringUnit_eq (u : StringUnit) : copyStringUnit u = u := rfl

theorem copyLocalizationEntry_eq (l : LocalizationEntry) : copyLocalizationEntry l = l := by
  cases l with
  | mk su => cases su <;> rfl

theorem copyStringEntry_eq (e : StringEntry) : copyStringEntry e = e := by
  cases e with
  | mk c s xs locs =>
    cases locs with
    | none => rfl
    | some ls =>
      simp [copyStringEntry, copyLocalizationEntry_eq]

@[simp] theorem jsonDeepCopy_eq (x : XCStrings) : jsonDeepCopy x = x := by
  cases x with
  | mk sl strs =>
    simp [jsonDeepCopy, copyStringEntry_eq]

/-! ## Association-list lemmas -/

theorem lookup_eq_none_of_not_mem_keys {α : Type} {l : List (String × α)} {k : String}
    (h : k ∉ l.map Prod.fst) : l.lookup k = none := by
  induction l with
  | nil => rfl
  | cons p t ih =>
    simp only [List.map_cons, List.mem_cons, not_or] at h
    have hne : (k == p.1) = false := beq_eq_false_iff_ne.mpr h.1
    cases p with
    | mk k' a =>
      simp only [List.lookup]
      simp only [Prod.fst] at hne
      rw [hne]
      exact ih h.2

theorem mem_of_lookup_eq_some {α : Type} {l : List (String × α)} {k : String} {a : α}
    (h : l.lookup k = some a) : (k, a) ∈ l := by
  induction l with
  | nil => simp [List.lookup] at h
  | cons p t ih =>
    cases p with
    | mk k' b =>
      by_cases hk : (k == k') = true
      · have hkk : k = k' := eq_of_beq hk
        simp only [List.lookup, hk] at h
        have hb : b = a := by injection h
        subst hb; subst hkk
        exact List.mem_cons_self _ _
      · have hk' : (k == k') = false := by
          cases hb : (k == k') with
          | true => exact absurd hb hk
          | false => rfl
        simp only [List.lookup, hk'] at h
        exact List.mem_cons_of_mem _ (ih h)

theorem lookup_eq_some_of_mem_nodup {α : Type} {l : List (String × α)}
    (hnd : (l.map Prod.fst).Nodup) {k : String} {a : α} (hmem : (k, a) ∈ l) :
    l.lookup k = some a := by
  induction l with
  | nil => cases hmem
  | cons p t ih =>
    rw [List.map_cons, List.nodup_cons] at hnd
    rcases List.mem_cons.mp hmem with heq | hmem'
    · cases heq
      simp [List.lookup]
    · have hk : k ∈ t.map Prod.fst := List.mem_map_of_mem Prod.fst hmem'
      have hne : (k == p.1) = false := beq_eq_false_iff_ne.mpr (by
        intro he; exact hnd.1 (he ▸ hk))
      cases p with
      | mk k' b =>
        simp only [List.lookup]
        simp only [Prod.fst] at hne
        rw [hne]
        exact ih hnd.2 hmem'

theorem assoc_value_unique {α : Type} {l : List (String × α)}
    (hnd : (l.map Prod.fst).Nodup) {k : String} {a b : α}
    (ha : (k, a) ∈ l) (hb : (k, b) ∈ l) : a = b := by
  have h1 := lookup_eq_some_of_mem_nodup hnd ha
  have h2 := lookup_eq_some_of_mem_nodup hnd hb
  rw [h1] at h2
  injection h2

theorem lookup_map_pair {α : Type} (g : String → α) (l : List String) (k : String) :
    (l.map (fun s => (s, g s))).lookup k = if k ∈ l then some (g k) else none := by
  induction l with
  | nil => simp [List.lookup]
  | cons s t ih =>
    by_cases hk : k = s
    · subst hk
      simp [List.lookup]
    · have hne : (k == s) = false := beq_eq_false_iff_ne.mpr hk
      simp only [List.map_cons, List.lookup, hne, List.mem_cons]
      rw [ih]
      by_cases hkt : k ∈ t <;> simp [hkt, hk]

theorem lookup_filterMap_eq_none {α β : Type} {f : String × α → Option (String × β)}
    (hf : ∀ p q, f p = some q → q.1 = p.1) {l : List (String × α)} {k : String}
    (h : k ∉ l.map Prod.fst) : (l.filterMap f).lookup k = none := by
  apply lookup_eq_none_of_not_mem_keys
  intro hkmem
  rcases List.mem_map.mp hkmem with ⟨q, hq, hq1⟩
  rcases List.mem_filterMap.mp hq with ⟨p, hp, hfp⟩
  have : q.1 = p.1 := hf p q hfp
  exact h (List.mem_map.mpr ⟨p, hp, by rw [← this, hq1]⟩)

theorem lookup_filterMap_keyed {α β : Type} {f : String × α → Option (String × β)}
    (hf : ∀ p q, f p = some q → q.1 = p.1) {l : List (String × α)}
    (hnd : (l.map Prod.fst).Nodup) {k : String} {a : α} (hmem : (k, a) ∈ l) :
    (l.filterMap f).lookup k = (f (k, a)).map Prod.snd := by
  induction l with
  | nil => cases hmem
  | cons p t ih =>
    rw [List.map_cons, List.nodup_cons] at hnd
    rcases List.mem_cons.mp hmem with heq | hmem'
    · cases heq
      rw [List.filterMap_cons]
      cases hfp : f (k, a) with
      | none =>
        simp only [Option.map_none']
        exact lookup_filterMap_eq_none hf hnd.1
      | some q =>
        have hq1 : q.1 = k := hf _ _ hfp
        cases q with
        | mk qk qb =>
          simp only [Prod.fst] at hq1
          subst hq1
          simp [List.lookup]
    · have hk : k ∈ t.map Prod.fst := List.mem_map_of_mem Prod.fst hmem'
      have hne : p.1 ≠ k := by intro he; exact hnd.1 (he ▸ hk)
      rw [List.filterMap_cons]
      cases hfp : f p with
      | none => exact ih hnd.2 hmem'
      | some q =>
        have hq1 : q.1 = p.1 := hf _ _ hfp
        have hkq : (k == q.1) = false := beq_eq_false_iff_ne.mpr (by
          rw [hq1]; exact fun he => hne he.symm)
        cases q with
        | mk qk qb =>
          simp only [List.lookup]
          simp only [Prod.fst] at hkq
          rw [hkq]
          exact ih hnd.2 hmem'

/-! ## Analyzer component lemmas -/

@[simp] theorem analyze_translationRequests (x : XCStrings) (tl : List String)
    (src : Option String) :
    (analyzeStringsForTranslation x tl src).translationRequests =
      x.strings.filterMap (entryRequest tl src) := by
  simp [analyzeStringsForTranslation]

@[simp] theorem analyze_added (x : XCStrings) (tl : List String) (src : Option String) :
    (analyzeStringsForTranslation x tl src).added = [] := by
  simp [analyzeStringsForTranslation]

@[simp] theorem analyze_updated (x : XCStrings) (tl : List String) (src : Option String) :
    (analyzeStringsForTranslation x tl src).updated = [] := by
  simp [analyzeStringsForTranslation]

@[simp] theorem analyze_staleRemoved (x : XCStrings) (tl : List String) (src : Option String) :
    (analyzeStringsForTranslation x tl src).staleRemoved =
      (x.strings.filter (fun p => isStale p.2)).map Prod.fst := by
  simp [analyzeStringsForTranslation]

@[simp] theorem analyze_stringTranslationMap (x : XCStrings) (tl : List String)
    (src : Option String) :
    (analyzeStringsForTranslation x tl src).stringTranslationMap =
      x.strings.filterMap (entryNeedRecord tl) := by
  simp [analyzeStringsForTranslation]

@[simp] theorem analyze_modified_strings (x : XCStrings) (tl : List String)
    (src : Option String) :
    (analyzeStringsForTranslation x tl src).modifiedXcstringsData.strings =
      x.strings.filterMap processEntry := by
  simp [analyzeStringsForTranslation]

@[simp] theorem analyze_xcstringsModified (x : XCStrings) (tl : List String)
    (src : Option String) :
    (analyzeStringsForTranslation x tl src).xcstringsModified =
      x.strings.any (fun p => isStale p.2) := by
  simp [analyzeStringsForTranslation]

@[simp] theorem analyze_fallbackToKeyCount (x : XCStrings) (tl : List String)
    (src : Option String) :
    (analyzeStringsForTranslation x tl src).fallbackToKeyCount =
      x.strings.countP (fun p => emitsRequest tl p.2 && useKeyFallback src p.2) := by
  simp [analyzeStringsForTranslation]

/-! ## Spec-side predicates

The specification states the need condition and the fallback condition in
terms of the catalog data; these definitions spell those conditions exactly
as the spec words them, to be compared with the code-side tests. -/

/-- The localization entry an entry holds for a language (the `localizations`
object read as empty when absent). -/
def localizationFor (e : StringEntry) (lang : String) : Option LocalizationEntry :=
  (materializedLocs e).lookup lang

/-- The `stringUnit.value` reached through the localization entry for `lang`. -/
def localizedValue (e : StringEntry) (lang : String) : Option String :=
  ((localizationFor e lang).bind (fun l => l.stringUnit)).bind (fun u => u.value)

/-- The `stringUnit.state` reached through the localization entry for `lang`. -/
def localizedState (e : StringEntry) (lang : String) : Option String :=
  ((localizationFor e lang).bind (fun l => l.stringUnit)).bind (fun u => u.state)

/-- The specification's need condition: the localization entry for the
language is absent, or its `stringUnit.value` is absent, empty or
whitespace-only, or its `stringUnit.state` is `needs_review`. -/
def needSpec (e : StringEntry) (lang : String) : Bool :=
  (localizationFor e lang).isNone ||
  (match localizedValue e lang with
   | none => true
   | some v => jsTrim v == "") ||
  (localizedState e lang == some "needs_review")

/-- The specification's fallback condition: no source-language hint was
supplied, or the hint's localization value is absent, or it is empty after
trimming. -/
def fellBackToKey (src : Option String) (e : StringEntry) : Bool :=
  match src with
  | none => true
  | some s =>
    match localizedValue e s with
    | none => true
    | some v => jsTrim v == ""

theorem string_length_eq_zero {s : String} : s.length = 0 ↔ s = "" := by
  constructor
  · intro h
    cases s with
    | mk data =>
      cases data with
      | nil => rfl
      | cons c cs => simp [String.length] at h
  · intro h; subst h; rfl

/-- The empty-or-whitespace test of the analyzer agrees with the spec's
"empty or whitespace-only after trimming". -/
theorem emptyCheck_eq_trim (v : String) :
    (v == "" || (jsTrim v).length == 0) = (jsTrim v == "") := by
  by_cases h : jsTrim v = ""
  · have h0 : (jsTrim v).length = 0 := by rw [h]; rfl
    simp [h, h0]
  · have h0 : (jsTrim v).length ≠ 0 := fun hc => h (string_length_eq_zero.mp hc)
    have hv : v ≠ "" := by
      intro hc; subst hc; exact h (by decide)
    rw [beq_eq_false_iff_ne.mpr hv, beq_eq_false_iff_ne.mpr h0,
      beq_eq_false_iff_ne.mpr h]
    rfl

/-- The analyzer's per-language need test coincides with the spec's need
condition. -/
theorem needsTranslationForLang_eq_needSpec (e : StringEntry) (lang : String) :
    needsTranslationForLang (materializedLocs e) lang = needSpec e lang := by
  simp only [needsTranslationForLang, needSpec, localizedValue, localizedState,
    localizationFor]
  cases hloc : (materializedLocs e).lookup lang with
  | none => simp [hloc]
  | some l =>
    cases hsu : l.stringUnit with
    | none => simp [hloc, hsu]
    | some su =>
      cases hv : su.value with
      | none => simp [hloc, hsu, hv]
      | some v =>
        simp only [hloc, hsu, hv, Option.some_bind, Option.isNone_some, Bool.false_or]
        rw [emptyCheck_eq_trim]

/-- The analyzer's fallback test coincides with the spec's fallback
condition. -/
theorem useKeyFallback_eq_fellBackToKey (src : Option String) (e : StringEntry) :
    useKeyFallback src e = fellBackToKey src e := by
  simp only [useKeyFallback, fellBackToKey, sourceTextCandidate, localizedValue,
    localizationFor]
  cases src with
  | none => rfl
  | some s =>
    cases hloc : (materializedLocs e).lookup s with
    | none => simp [hloc]
    | some l =>
      cases hsu : l.stringUnit with
      | none => simp [hloc, hsu]
      | some su =>
        cases hv : su.value with
        | none => simp [hloc, hsu, hv]
        | some v =>
          simp only [hloc, hsu, hv, Option.some_bind, Option.map_some']
          by_cases h : jsTrim v = ""
          · have h0 : (jsTrim v).length = 0 := by rw [h]; rfl
            simp [h, h0]
          · have h0 : (jsTrim v).length ≠ 0 := fun hc => h (string_length_eq_zero.mp hc)
            simp [h, h0]

/-! ## Key preservation of the per-entry passes -/

theorem entryRequest_key {tl : List String} {src : Option String}
    {p : String × StringEntry} {r : TranslationRequest}
    (h : entryRequest tl src p = some r) : r.key = p.1 := by
  unfold entryRequest at h
  by_cases he : emitsRequest tl p.2
  · simp [he] at h
    rw [← h]
  · simp [he] at h

theorem entryNeedRecord_key {tl : List String}
    {p : String × StringEntry} {q : String × TranslationNeedRecord}
    (h : entryNeedRecord tl p = some q) : q.1 = p.1 := by
  unfold entryNeedRecord at h
  by_cases he : emitsRequest tl p.2
  · simp [he] at h
    rw [← h]
  · simp [he] at h

theorem processEntry_key {p q : String × StringEntry}
    (h : processEntry p = some q) : q.1 = p.1 := by
  unfold processEntry at h
  by_cases hs : isStale p.2
  · simp [hs] at h
  · by_cases ho : isOptedOut p.2
    · simp [hs, ho] at h
      rw [← h]
    · simp [hs, ho] at h
      rw [← h]

/-- What `processEntry` returns for an active (non-stale, non-opted-out)
entry. -/
theorem processEntry_active {p : String × StringEntry}
    (hs : isStale p.2 = false) (ho : isOptedOut p.2 = false) :
    processEntry p = some (p.1, { p.2 with localizations := some (materializedLocs p.2) }) := by
  unfold processEntry
  simp [hs, ho]

/-- What `processEntry` returns for an opted-out entry. -/
theorem processEntry_optedOut {p : String × StringEntry}
    (hs : isStale p.2 = false) (ho : isOptedOut p.2 = true) :
    processEntry p = some p := by
  unfold processEntry
  simp [hs, ho]

/-- Entries surviving `processEntry` keep their `extractionState`. -/
theorem processEntry_extractionState {p q : String × StringEntry}
    (h : processEntry p = some q) : q.2.extractionState = p.2.extractionState := by
  unfold processEntry at h
  by_cases hs : isStale p.2
  · simp [hs] at h
  · by_cases ho : isOptedOut p.2
    · simp [hs, ho] at h
      rw [← h]
    · simp [hs, ho] at h
      rw [← h]

/-- Entries surviving `processEntry` were not stale. -/
theorem processEntry_not_stale {p q : String × StringEntry}
    (h : processEntry p = some q) : isStale p.2 = false := by
  unfold processEntry at h
  by_cases hs : isStale p.2
  · simp [hs] at h
  · exact eq_false_of_ne_true hs

/-! ## Result accessors and shared claim-support lemmas -/

/-- The `languagesNeeded` recorded for a key in the need index (empty when
the key has no record). -/
def resultLanguagesNeeded (res : StringAnalysisResult) (key : String) : List String :=
  match res.stringTranslationMap.lookup key with
  | some r => r.languages
  | none => []

/-- The `isNew` flag recorded for a key and language. -/
def resultIsNew (res : StringAnalysisResult) (key lang : String) : Option Bool :=
  (res.stringTranslationMap.lookup key).bind (fun r => r.isNew.lookup lang)

theorem needRecord_lookup (x : XCStrings) (tl : List String) (src : Option String)
    (hnd : (x.strings.map Prod.fst).Nodup) {key : String} {e : StringEntry}
    (hmem : (key, e) ∈ x.strings) :
    (analyzeStringsForTranslation x tl src).stringTranslationMap.lookup key =
      (entryNeedRecord tl (key, e)).map Prod.snd := by
  rw [analyze_stringTranslationMap]
  exact lookup_filterMap_keyed (fun p q h => entryNeedRecord_key h) hnd hmem

theorem modified_lookup (x : XCStrings) (tl : List String) (src : Option String)
    (hnd : (x.strings.map Prod.fst).Nodup) {key : String} {e : StringEntry}
    (hmem : (key, e) ∈ x.strings) :
    (analyzeStringsForTranslation x tl src).modifiedXcstringsData.strings.lookup key =
      (processEntry (key, e)).map Prod.snd := by
  rw [analyze_modified_strings]
  exact lookup_filterMap_keyed (fun p q h => processEntry_key h) hnd hmem

theorem no_request_for_key (x : XCStrings) (tl : List String) (src : Option String)
    (hnd : (x.strings.map Prod.fst).Nodup) {key : String} {e : StringEntry}
    (hmem : (key, e) ∈ x.strings)
    (hnone : entryRequest tl src (key, e) = none) :
    ∀ r ∈ (analyzeStringsForTranslation x tl src).translationRequests, r.key ≠ key := by
  rw [analyze_translationRequests]
  intro r hr hrk
  rcases List.mem_filterMap.mp hr with ⟨p, hp, hfp⟩
  have hk : r.key = p.1 := entryRequest_key hfp
  cases p with
  | mk pk pe =>
    have hpk : pk = key := by rw [← hrk, hk]
    subst hpk
    have hpe : pe = e := assoc_value_unique hnd hp hmem
    subst hpe
    rw [hnone] at hfp
    cases hfp

theorem staleRemoved_count_one {l : List (String × StringEntry)}
    (hnd : (l.map Prod.fst).Nodup) {key : String} {e : StringEntry}
    (hmem : (key, e) ∈ l) (hstale : isStale e = true) :
    ((l.filter (fun p => isStale p.2)).map Prod.fst).count key = 1 := by
  induction l with
  | nil => cases hmem
  | cons p t ih =>
    rw [List.map_cons, List.nodup_cons] at hnd
    rcases List.mem_cons.mp hmem with heq | hmem'
    · cases heq
      rw [List.filter_cons]
      simp only [hstale, if_true, List.map_cons, List.count_cons_self]
      have h0 : key ∉ (t.filter (fun p => isStale p.2)).map Prod.fst := by
        intro hk
        rcases List.mem_map.mp hk with ⟨q, hq, hq1⟩
        have hq' : q ∈ t := List.mem_of_mem_filter hq
        have hq'' : q.1 ∈ t.map Prod.fst := List.mem_map_of_mem Prod.fst hq'
        exact hnd.1 (hq1 ▸ hq'')
      rw [List.count_eq_zero.mpr h0]
    · have hkne : p.1 ≠ key := fun he => hnd.1 (he ▸ List.mem_map_of_mem Prod.fst hmem')
      rw [List.filter_cons]
      by_cases hp : isStale p.2 = true
      · simp only [hp, if_true, List.map_cons]
        rw [List.count_cons_of_ne (fun he => hkne he.symm)]
        exact ih hnd.2 hmem'
      · have hp' : isStale p.2 = false := eq_false_of_ne_true hp
        simp only [hp', Bool.false_eq_true, if_false]
        exact ih hnd.2 hmem'

/-- A stale entry produces no request. -/
theorem entryRequest_none_of_stale {tl : List String} {src : Option String}
    {p : String × StringEntry} (h : isStale p.2 = true) :
    entryRequest tl src p = none := by
  unfold entryRequest emitsRequest
  simp [h]

/-- An opted-out entry produces no request. -/
theorem entryRequest_none_of_optedOut {tl : List String} {src : Option String}
    {p : String × StringEntry} (h : isOptedOut p.2 = true) :
    entryRequest tl src p = none := by
  unfold entryRequest emitsRequest
  simp [h]

/-- A stale entry gets no need record. -/
theorem entryNeedRecord_none_of_stale {tl : List String}
    {p : String × StringEntry} (h : isStale p.2 = true) :
    entryNeedRecord tl p = none := by
  unfold entryNeedRecord emitsRequest
  simp [h]

/-- An opted-out entry gets no need record. -/
theorem entryNeedRecord_none_of_optedOut {tl : List String}
    {p : String × StringEntry} (h : isOptedOut p.2 = true) :
    entryNeedRecord tl p = none := by
  unfold entryNeedRecord emitsRequest
  simp [h]

/-! ## Concrete fixtures used by the witnesses -/

/-- A stale entry. -/
def wStaleEntry : StringEntry :=
  { comment := none, shouldTranslate := none,
    extractionState := some "stale", localizations := none }

/-- A stale entry that is also opted out. -/
def wStaleOptEntry : StringEntry :=
  { comment := none, shouldTranslate := some false,
    extractionState := some "stale", localizations := none }

/-- An opted-out entry. -/
def wOptEntry : StringEntry :=
  { comment := none, shouldTranslate := some false,
    extractionState := none, localizations := none }

/-- An entry whose `fr` localization is flagged `needs_review`. -/
def wReviewEntry : StringEntry :=
  { comment := none, shouldTranslate := none, extractionState := none,
    localizations :=
      some [("fr", ⟨some ⟨some "needs_review", some "Salut"⟩⟩)] }

/-- An entry with a translated source-language (`en`) value carrying
surrounding whitespace. -/
def wSourceEntry : StringEntry :=
  { comment := some "greeting", shouldTranslate := none, extractionState := none,
    localizations :=
      some [("en", ⟨some ⟨some "translated", some "  Hello there  "⟩⟩)] }

/-- A fresh entry with an empty localizations object. -/
def wEmptyEntry : StringEntry :=
  { comment := none, shouldTranslate := none, extractionState := none,
    localizations := some [] }

/-! ## Claim theorems -/

/-- C9: the catalog-modified flag returned by analyze is true if and only if
at least one stale entry was removed; materializing an absent localizations
map and flagging languages as needing translation never by themselves set
the flag. -/
theorem modified_flag_iff_stale (x : XCStrings) (tl : List String) (src : Option String) :
    (analyzeStringsForTranslation x tl src).xcstringsModified = true ↔
      ∃ p ∈ x.strings, p.2.extractionState = some "stale" := by
  rw [analyze_xcstringsModified, List.any_eq_true]
  constructor
  · rintro ⟨p, hp, hs⟩
    exact ⟨p, hp, by simpa [isStale] using hs⟩
  · rintro ⟨p, hp, hs⟩
    exact ⟨p, hp, by simp [isStale, hs]⟩

/-- C3: stale removal is exhaustive: the working copy contains no stale
entry; a key whose entry was stale appears exactly once in `staleRemoved`;
and no translation request and no need-index entry is produced for it. -/
theorem stale_removal_exhaustive (x : XCStrings) (tl : List String) (src : Option String)
    (key : String) (e : StringEntry)
    (hnd : (x.strings.map Prod.fst).Nodup)
    (hmem : (key, e) ∈ x.strings)
    (hstale : e.extractionState = some "stale") :
    (∀ p ∈ (analyzeStringsForTranslation x tl src).modifiedXcstringsData.strings,
        p.2.extractionState ≠ some "stale") ∧
    (analyzeStringsForTranslation x tl src).staleRemoved.count key = 1 ∧
    (∀ r ∈ (analyzeStringsForTranslation x tl src).translationRequests, r.key ≠ key) ∧
    (analyzeStringsForTranslation x tl src).stringTranslationMap.lookup key = none := by
  have hstaleb : isStale e = true := by simp [isStale, hstale]
  refine ⟨?_, ?_, ?_, ?_⟩
  · intro p hp
    rw [analyze_modified_strings] at hp
    rcases List.mem_filterMap.mp hp with ⟨q, _, hfq⟩
    have h1 : isStale q.2 = false := processEntry_not_stale hfq
    have h2 : p.2.extractionState = q.2.extractionState := processEntry_extractionState hfq
    rw [h2]
    intro hc
    simp [isStale, hc] at h1
  · rw [analyze_staleRemoved]
    exact staleRemoved_count_one hnd hmem hstaleb
  · exact no_request_for_key x tl src hnd hmem (entryRequest_none_of_stale hstaleb)
  · rw [needRecord_lookup x tl src hnd hmem, entryNeedRecord_none_of_stale hstaleb]
    rfl

/-- Witness for C3 at a concrete catalog with one stale entry. -/
theorem stale_removal_exhaustive_witness :
    (((⟨none, [("Old", wStaleEntry)]⟩ : XCStrings).strings.map Prod.fst).Nodup ∧
      ("Old", wStaleEntry) ∈ (⟨none, [("Old", wStaleEntry)]⟩ : XCStrings).strings ∧
      wStaleEntry.extractionState = some "stale") ∧
    ((∀ p ∈ (analyzeStringsForTranslation ⟨none, [("Old", wStaleEntry)]⟩
          ["fr"] none).modifiedXcstringsData.strings,
        p.2.extractionState ≠ some "stale") ∧
      (analyzeStringsForTranslation ⟨none, [("Old", wStaleEntry)]⟩
          ["fr"] none).staleRemoved.count "Old" = 1 ∧
      (∀ r ∈ (analyzeStringsForTranslation ⟨none, [("Old", wStaleEntry)]⟩
          ["fr"] none).translationRequests, r.key ≠ "Old") ∧
      (analyzeStringsForTranslation ⟨none, [("Old", wStaleEntry)]⟩
          ["fr"] none).stringTranslationMap.lookup "Old" = none) :=
  ⟨⟨by decide, by decide, by decide⟩,
    stale_removal_exhaustive ⟨none, [("Old", wStaleEntry)]⟩ ["fr"] none "Old" wStaleEntry
      (by decide) (by decide) (by decide)⟩

/-- C10: stale removal takes precedence over opt-out: a stale entry with
`shouldTranslate === false` is still deleted and recorded in `staleRemoved`. -/
theorem stale_overrides_opt_out (x : XCStrings) (tl : List String) (src : Option String)
    (key : String) (e : StringEntry)
    (hnd : (x.strings.map Prod.fst).Nodup)
    (hmem : (key, e) ∈ x.strings)
    (hstale : e.extractionState = some "stale")
    (hopt : e.shouldTranslate = some false) :
    key ∈ (analyzeStringsForTranslation x tl src).staleRemoved ∧
    (∀ p ∈ (analyzeStringsForTranslation x tl src).modifiedXcstringsData.strings,
      p.1 ≠ key) := by
  have hstaleb : isStale e = true := by simp [isStale, hstale]
  constructor
  · rw [analyze_staleRemoved]
    exact List.mem_map_of_mem Prod.fst (List.mem_filter.mpr ⟨hmem, hstaleb⟩)
  · intro p hp hpk
    rw [analyze_modified_strings] at hp
    rcases List.mem_filterMap.mp hp with ⟨q, hq, hfq⟩
    cases q with
    | mk qk qe =>
      have hk : p.1 = qk := processEntry_key hfq
      have hqk : qk = key := by rw [← hpk, hk]
      subst hqk
      have hqe : qe = e := assoc_value_unique hnd hq hmem
      subst hqe
      unfold processEntry at hfq
      simp [hstaleb] at hfq

/-- Witness for C10 at a concrete stale, opted-out entry. -/
theorem stale_overrides_opt_out_witness :
    (((⟨none, [("Old", wStaleOptEntry)]⟩ : XCStrings).strings.map Prod.fst).Nodup ∧
      ("Old", wStaleOptEntry) ∈ (⟨none, [("Old", wStaleOptEntry)]⟩ : XCStrings).strings ∧
      wStaleOptEntry.extractionState = some "stale" ∧
      wStaleOptEntry.shouldTranslate = some false) ∧
    ("Old" ∈ (analyzeStringsForTranslation ⟨none, [("Old", wStaleOptEntry)]⟩
        ["fr"] none).staleRemoved ∧
      (∀ p ∈ (analyzeStringsForTranslation ⟨none, [("Old", wStaleOptEntry)]⟩
          ["fr"] none).modifiedXcstringsData.strings, p.1 ≠ "Old")) :=
  ⟨⟨by decide, by decide, by decide, by decide⟩,
    stale_overrides_opt_out ⟨none, [("Old", wStaleOptEntry)]⟩ ["fr"] none "Old" wStaleOptEntry
      (by decide) (by decide) (by decide) (by decide)⟩

/-- C6: opt-out is inert: an entry with `shouldTranslate === false` (and not
stale) survives analysis unchanged, produces no request and no need-index
entry, and never sets the catalog-modified flag on its account. -/
theorem opt_out_inert (x : XCStrings) (tl : List String) (src : Option String)
    (key : String) (e : StringEntry)
    (hnd : (x.strings.map Prod.fst).Nodup)
    (hmem : (key, e) ∈ x.strings)
    (hopt : e.shouldTranslate = some false)
    (hstale : e.extractionState ≠ some "stale") :
    (analyzeStringsForTranslation x tl src).modifiedXcstringsData.strings.lookup key =
      some e ∧
    (∀ r ∈ (analyzeStringsForTranslation x tl src).translationRequests, r.key ≠ key) ∧
    (analyzeStringsForTranslation x tl src).stringTranslationMap.lookup key = none ∧
    ((analyzeStringsForTranslation x tl src).xcstringsModified = true →
      ∃ p ∈ x.strings, p.2.extractionState = some "stale" ∧ p.1 ≠ key) := by
  have hstaleb : isStale e = false := by
    simp [isStale]
    exact hstale
  have hoptb : isOptedOut e = true := by simp [isOptedOut, hopt]
  refine ⟨?_, ?_, ?_, ?_⟩
  · rw [modified_lookup x tl src hnd hmem, processEntry_optedOut hstaleb hoptb]
    rfl
  · exact no_request_for_key x tl src hnd hmem (entryRequest_none_of_optedOut hoptb)
  · rw [needRecord_lookup x tl src hnd hmem, entryNeedRecord_none_of_optedOut hoptb]
    rfl
  · intro hmod
    rw [analyze_xcstringsModified, List.any_eq_true] at hmod
    rcases hmod with ⟨p, hp, hs⟩
    have hs' : p.2.extractionState = some "stale" := by simpa [isStale] using hs
    refine ⟨p, hp, hs', ?_⟩
    intro hpk
    cases p with
    | mk pk pe =>
      subst hpk
      have : pe = e := assoc_value_unique hnd hp hmem
      subst this
      exact hstale hs'

/-- Witness for C6: an opted-out entry next to a stale one. -/
theorem opt_out_inert_witness :
    (((⟨none, [("Skip", wOptEntry), ("Old", wStaleEntry)]⟩ : XCStrings).strings.map
        Prod.fst).Nodup ∧
      ("Skip", wOptEntry) ∈
        (⟨none, [("Skip", wOptEntry), ("Old", wStaleEntry)]⟩ : XCStrings).strings ∧
      wOptEntry.shouldTranslate = some false ∧
      wOptEntry.extractionState ≠ some "stale") ∧
    ((analyzeStringsForTranslation ⟨none, [("Skip", wOptEntry), ("Old", wStaleEntry)]⟩
        ["fr"] none).modifiedXcstringsData.strings.lookup "Skip" = some wOptEntry ∧
      (∀ r ∈ (analyzeStringsForTranslation
          ⟨none, [("Skip", wOptEntry), ("Old", wStaleEntry)]⟩
          ["fr"] none).translationRequests, r.key ≠ "Skip") ∧
      (analyzeStringsForTranslation ⟨none, [("Skip", wOptEntry), ("Old", wStaleEntry)]⟩
          ["fr"] none).stringTranslationMap.lookup "Skip" = none ∧
      ((analyzeStringsForTranslation ⟨none, [("Skip", wOptEntry), ("Old", wStaleEntry)]⟩
          ["fr"] none).xcstringsModified = true →
        ∃ p ∈ (⟨none, [("Skip", wOptEntry), ("Old", wStaleEntry)]⟩ : XCStrings).strings,
          p.2.extractionState = some "stale" ∧ p.1 ≠ "Skip")) :=
  ⟨⟨by decide, by decide, by decide, by decide⟩,
    opt_out_inert ⟨none, [("Skip", wOptEntry), ("Old", wStaleEntry)]⟩ ["fr"] none
      "Skip" wOptEntry (by decide) (by decide) (by decide) (by decide)⟩

/-- C2: need detection completeness: for a non-stale, non-opted-out entry,
a target language is placed in `languagesNeeded` iff its localization entry
is absent or its value is absent/empty/whitespace-only or its state is
`needs_review`; a `translated` entry with a non-empty non-whitespace value
is never flagged; and `isNew` is recorded true exactly when no localization
entry existed for the language. -/
theorem need_detection_complete (x : XCStrings) (tl : List String) (src : Option String)
    (key : String) (e : StringEntry)
    (hnd : (x.strings.map Prod.fst).Nodup)
    (hmem : (key, e) ∈ x.strings)
    (hstale : isStale e = false) (hopt : isOptedOut e = false) :
    ∀ lang ∈ tl,
      (lang ∈ resultLanguagesNeeded (analyzeStringsForTranslation x tl src) key ↔
        needSpec e lang = true) ∧
      (lang ∈ resultLanguagesNeeded (analyzeStringsForTranslation x tl src) key →
        resultIsNew (analyzeStringsForTranslation x tl src) key lang =
          some (localizationFor e lang).isNone) ∧
      (∀ v, localizedValue e lang = some v → jsTrim v ≠ "" →
        localizedState e lang = some "translated" →
        lang ∉ resultLanguagesNeeded (analyzeStringsForTranslation x tl src) key) := by
  intro lang hlang
  have hlk := needRecord_lookup x tl src hnd hmem
  have hmemiff : lang ∈ entryLanguagesNeeded tl e ↔ needSpec e lang = true := by
    unfold entryLanguagesNeeded
    rw [List.mem_filter]
    constructor
    · rintro ⟨_, h⟩
      rw [← needsTranslationForLang_eq_needSpec]
      exact h
    · intro h
      exact ⟨hlang, by rw [needsTranslationForLang_eq_needSpec]; exact h⟩
  by_cases hemit : emitsRequest tl e = true
  · have hrec : entryNeedRecord tl (key, e) =
        some (key, { languages := entryLanguagesNeeded tl e, isNew := entryIsNewMap tl e }) := by
      unfold entryNeedRecord
      simp [hemit]
    have hlangs : resultLanguagesNeeded (analyzeStringsForTranslation x tl src) key =
        entryLanguagesNeeded tl e := by
      unfold resultLanguagesNeeded
      rw [hlk, hrec]
      rfl
    refine ⟨by rw [hlangs]; exact hmemiff, ?_, ?_⟩
    · intro hin
      rw [hlangs] at hin
      unfold resultIsNew
      rw [hlk, hrec]
      simp only [Option.map_some', Option.some_bind]
      show (entryIsNewMap tl e).lookup lang = some (localizationFor e lang).isNone
      unfold entryIsNewMap
      rw [lookup_map_pair]
      simp only [hin, if_true]
      rfl
    · intro v hv hvt hst hin
      rw [hlangs] at hin
      have hns := hmemiff.mp hin
      unfold needSpec at hns
      have hloc : ∃ l, localizationFor e lang = some l := by
        cases hl : localizationFor e lang with
        | none =>
          unfold localizedValue at hv
          rw [hl] at hv
          cases hv
        | some l => exact ⟨l, rfl⟩
      rcases hloc with ⟨l, hl⟩
      rw [hl, hv, hst] at hns
      have hne : (jsTrim v == "") = false := beq_eq_false_iff_ne.mpr hvt
      have hne2 : ((some "translated" : Option String) == some "needs_review") = false := by
        decide
      simp [hne, hne2] at hns
  · have hneed : entryLanguagesNeeded tl e = [] := by
      unfold emitsRequest at hemit
      rw [hstale, hopt] at hemit
      simp at hemit
      exact hemit
    have hrec : entryNeedRecord tl (key, e) = none := by
      unfold entryNeedRecord
      simp [hemit]
    have hlangs : resultLanguagesNeeded (analyzeStringsForTranslation x tl src) key = [] := by
      unfold resultLanguagesNeeded
      rw [hlk, hrec]
      rfl
    rw [hlangs]
    refine ⟨?_, ?_, ?_⟩
    · constructor
      · intro hin
        cases hin
      · intro h
        have : lang ∈ entryLanguagesNeeded tl e := hmemiff.mpr h
        rw [hneed] at this
        cases this
    · intro hin
      cases hin
    · intro v _ _ _ hin
      cases hin

/-- Witness for C2: a catalog with a `needs_review` entry, checked at `fr`. -/
theorem need_detection_complete_witness :
    (((⟨some "en", [("Hi", wReviewEntry)]⟩ : XCStrings).strings.map Prod.fst).Nodup ∧
      ("Hi", wReviewEntry) ∈ (⟨some "en", [("Hi", wReviewEntry)]⟩ : XCStrings).strings ∧
      isStale wReviewEntry = false ∧ isOptedOut wReviewEntry = false ∧ "fr" ∈ ["fr"]) ∧
    (("fr" ∈ resultLanguagesNeeded
        (analyzeStringsForTranslation ⟨some "en", [("Hi", wReviewEntry)]⟩ ["fr"] none) "Hi" ↔
      needSpec wReviewEntry "fr" = true) ∧
    ("fr" ∈ resultLanguagesNeeded
        (analyzeStringsForTranslation ⟨some "en", [("Hi", wReviewEntry)]⟩ ["fr"] none) "Hi" →
      resultIsNew
        (analyzeStringsForTranslation ⟨some "en", [("Hi", wReviewEntry)]⟩ ["fr"] none)
        "Hi" "fr" = some (localizationFor wReviewEntry "fr").isNone) ∧
    (∀ v, localizedValue wReviewEntry "fr" = some v → jsTrim v ≠ "" →
      localizedState wReviewEntry "fr" = some "translated" →
      "fr" ∉ resultLanguagesNeeded
        (analyzeStringsForTranslation ⟨some "en", [("Hi", wReviewEntry)]⟩ ["fr"] none) "Hi")) :=
  ⟨⟨by decide, by decide, by decide, by decide, by decide⟩,
    need_detection_complete ⟨some "en", [("Hi", wReviewEntry)]⟩ ["fr"] none "Hi" wReviewEntry
      (by decide) (by decide) (by decide) (by decide) "fr" (by decide)⟩

/-- C4: fallback determinism of source-text selection: for a key with at
least one needed language, the emitted request's text is the key when no
hint is supplied or the hint's localization value is absent or trims to
empty, and is the trimmed hint value otherwise; the fallback counter counts
exactly the requests that fell back to the key. -/
theorem source_text_fallback_deterministic (x : XCStrings) (tl : List String)
    (src : Option String) (key : String) (e : StringEntry)
    (hnd : (x.strings.map Prod.fst).Nodup)
    (hmem : (key, e) ∈ x.strings)
    (hstale : isStale e = false) (hopt : isOptedOut e = false)
    (hneed : entryLanguagesNeeded tl e ≠ []) :
    (∃ r ∈ (analyzeStringsForTranslation x tl src).translationRequests,
      r.key = key ∧
      (src = none → r.text = key) ∧
      (∀ s, src = some s →
        (localizedValue e s = none → r.text = key) ∧
        (∀ v, localizedValue e s = some v → jsTrim v = "" → r.text = key) ∧
        (∀ v, localizedValue e s = some v → jsTrim v ≠ "" → r.text = jsTrim v))) ∧
    (analyzeStringsForTranslation x tl src).fallbackToKeyCount =
      x.strings.countP (fun p => emitsRequest tl p.2 && fellBackToKey src p.2) := by
  have hemit : emitsRequest tl e = true := by
    unfold emitsRequest
    rw [hstale, hopt]
    simp
    exact hneed
  have hreq : entryRequest tl src (key, e) =
      some { key := key
             text := if useKeyFallback src e then key
                     else (sourceTextCandidate src e).getD ""
             targetLanguages := entryLanguagesNeeded tl e
             comment := e.comment } := by
    unfold entryRequest
    simp [hemit]
  constructor
  · have hmemreq :
        ({ key := key,
           text := if useKeyFallback src e then key else (sourceTextCandidate src e).getD "",
           targetLanguages := entryLanguagesNeeded tl e,
           comment := e.comment } : TranslationRequest) ∈
          (analyzeStringsForTranslation x tl src).translationRequests := by
      rw [analyze_translationRequests]
      exact List.mem_filterMap.mpr ⟨(key, e), hmem, hreq⟩
    refine ⟨_, hmemreq, rfl, ?_, ?_⟩
    · intro hsrc
      subst hsrc
      have hcand : sourceTextCandidate none e = none := rfl
      have hfb : useKeyFallback none e = true := by
        unfold useKeyFallback
        rw [hcand]
      show (if useKeyFallback none e then key else (sourceTextCandidate none e).getD "") = key
      simp [hfb]
    · intro s hsrc
      subst hsrc
      have hcand : sourceTextCandidate (some s) e =
          (localizedValue e s).map (fun v => jsTrim v) := by
        unfold sourceTextCandidate localizedValue localizationFor
        rfl
      refine ⟨?_, ?_, ?_⟩
      · intro hv
        have hfb : useKeyFallback (some s) e = true := by
          unfold useKeyFallback
          rw [hcand, hv]
          rfl
        show (if useKeyFallback (some s) e then key
              else (sourceTextCandidate (some s) e).getD "") = key
        simp [hfb]
      · intro v hv hvt
        have hfb : useKeyFallback (some s) e = true := by
          unfold useKeyFallback
          rw [hcand, hv]
          simp [hvt]
        show (if useKeyFallback (some s) e then key
              else (sourceTextCandidate (some s) e).getD "") = key
        simp [hfb]
      · intro v hv hvt
        have hlen : ((jsTrim v).length == 0) = false := by
          apply beq_eq_false_iff_ne.mpr
          intro hc
          exact hvt (string_length_eq_zero.mp hc)
        have hfb : useKeyFallback (some s) e = false := by
          unfold useKeyFallback
          rw [hcand, hv]
          simpa using hlen
        show (if useKeyFallback (some s) e then key
              else (sourceTextCandidate (some s) e).getD "") = jsTrim v
        rw [hfb]
        simp only [Bool.false_eq_true, if_false]
        rw [hcand, hv]
        rfl
  · rw [analyze_fallbackToKeyCount]
    apply List.countP_congr
    intro p _
    rw [useKeyFallback_eq_fellBackToKey]

/-- Witness for C4: a key whose `en` source value carries surrounding
whitespace. -/
theorem source_text_fallback_deterministic_witness :
    (((⟨some "en", [("greet", wSourceEntry)]⟩ : XCStrings).strings.map Prod.fst).Nodup ∧
      ("greet", wSourceEntry) ∈ (⟨some "en", [("greet", wSourceEntry)]⟩ : XCStrings).strings ∧
      isStale wSourceEntry = false ∧ isOptedOut wSourceEntry = false ∧
      entryLanguagesNeeded ["fr"] wSourceEntry ≠ []) ∧
    ((∃ r ∈ (analyzeStringsForTranslation ⟨some "en", [("greet", wSourceEntry)]⟩
        ["fr"] (some "en")).translationRequests,
      r.key = "greet" ∧
      ((some "en" : Option String) = none → r.text = "greet") ∧
      (∀ s, (some "en" : Option String) = some s →
        (localizedValue wSourceEntry s = none → r.text = "greet") ∧
        (∀ v, localizedValue wSourceEntry s = some v → jsTrim v = "" → r.text = "greet") ∧
        (∀ v, localizedValue wSourceEntry s = some v → jsTrim v ≠ "" → r.text = jsTrim v))) ∧
    (analyzeStringsForTranslation ⟨some "en", [("greet", wSourceEntry)]⟩
        ["fr"] (some "en")).fallbackToKeyCount =
      (⟨some "en", [("greet", wSourceEntry)]⟩ : XCStrings).strings.countP
        (fun p => emitsRequest ["fr"] p.2 && fellBackToKey (some "en") p.2)) :=
  ⟨⟨by decide, by decide, by decide, by decide, by decide⟩,
    source_text_fallback_deterministic ⟨some "en", [("greet", wSourceEntry)]⟩ ["fr"]
      (some "en") "greet" wSourceEntry (by decide) (by decide) (by decide) (by decide)
      (by decide)⟩

/-! ## Merger lemmas and claims -/

/-- Unfolding the merge loop one response item at a time. -/
theorem mergeBatch_cons (needIndex : List (String × TranslationNeedRecord))
    (st : MergeState) (tr : TranslationResult) (rest : List TranslationResult) :
    mergeBatchResponse needIndex st (tr :: rest) =
      (mergeTranslationResult needIndex st tr).bind
        (fun st' => mergeBatchResponse needIndex st' rest) := by
  rfl

/-- A response item whose key is missing from the catalog or the need index
only appends a warning. -/
theorem mergeTranslationResult_skip
    (needIndex : List (String × TranslationNeedRecord)) (st : MergeState)
    (tr : TranslationResult)
    (h : st.catalog.strings.lookup tr.key = none ∨ needIndex.lookup tr.key = none) :
    mergeTranslationResult needIndex st tr =
      Except.ok { st with
        warnings := st.warnings ++ ["Received translation for unknown key: " ++ tr.key] } := by
  unfold mergeTranslationResult
  rcases h with hcat | hidx
  · rw [hcat]
  · rw [hidx]
    cases st.catalog.strings.lookup tr.key <;> rfl

/-- C1 (code bug): for a provider-returned language whose localization entry
did not exist before analysis (`isNew = true`), the merge assignment
`stringEntry.localizations![lang]!.stringUnit = {…}` does not materialize
the entry: at runtime it throws a `TypeError` and the whole run aborts,
contradicting the claimed "materializing the localization entry for that
language if it did not exist before".  Shown on the specification's own
scenario: catalog `{"Hello": {localizations: {}}}`, target `fr`, provider
response `fr ↦ "Bonjour"`. -/
theorem merge_typeerror_on_new_language :
    runPipeline ⟨some "en", [("Hello", wEmptyEntry)]⟩ ["fr"] none
      [⟨"Hello", [("fr", "Bonjour")]⟩] =
    Except.error "TypeError: cannot set stringUnit for language fr" := by
  rfl

/-- C7: merger tolerance of out-of-contract responses: an item whose key is
absent from the modified catalog or from the need index yields a diagnostic
and no catalog mutation and no ledger append, and the remaining items are
still processed; a pair whose language is not in that key's
`languagesNeeded` is skipped without any mutation. -/
theorem merge_skips_out_of_contract
    (needIndex : List (String × TranslationNeedRecord)) (st : MergeState)
    (tr : TranslationResult) (rest : List TranslationResult)
    (h : st.catalog.strings.lookup tr.key = none ∨ needIndex.lookup tr.key = none) :
    (mergeBatchResponse needIndex st (tr :: rest) =
      mergeBatchResponse needIndex
        { st with
          warnings := st.warnings ++ ["Received translation for unknown key: " ++ tr.key] }
        rest) ∧
    (∀ key info acc lang v, lang ∉ info.languages →
      mergePair key info acc (lang, v) = Except.ok acc) := by
  constructor
  · rw [mergeBatch_cons, mergeTranslationResult_skip needIndex st tr h]
    rfl
  · intro key info acc lang v hlang
    have hc : info.languages.contains lang = false := by simpa using hlang
    unfold mergePair
    simp [hc, hlang]

/-- Witness for C7: a response item for a key that was never requested,
processed before a valid needs-review update. -/
theorem merge_skips_out_of_contract_witness :
    ((initialMergeState (analyzeStringsForTranslation ⟨some "en", [("Hi", wReviewEntry)]⟩
        ["fr"] none)).catalog.strings.lookup "Ghost" = none ∨
      (analyzeStringsForTranslation ⟨some "en", [("Hi", wReviewEntry)]⟩
        ["fr"] none).stringTranslationMap.lookup "Ghost" = none) ∧
    ((mergeBatchResponse
        (analyzeStringsForTranslation ⟨some "en", [("Hi", wReviewEntry)]⟩
          ["fr"] none).stringTranslationMap
        (initialMergeState (analyzeStringsForTranslation ⟨some "en", [("Hi", wReviewEntry)]⟩
          ["fr"] none))
        [⟨"Ghost", [("fr", "Boo")]⟩, ⟨"Hi", [("fr", "Salut!")]⟩] =
      mergeBatchResponse
        (analyzeStringsForTranslation ⟨some "en", [("Hi", wReviewEntry)]⟩
          ["fr"] none).stringTranslationMap
        { initialMergeState (analyzeStringsForTranslation ⟨some "en", [("Hi", wReviewEntry)]⟩
            ["fr"] none) with
          warnings := (initialMergeState (analyzeStringsForTranslation
              ⟨some "en", [("Hi", wReviewEntry)]⟩ ["fr"] none)).warnings ++
            ["Received translation for unknown key: " ++ "Ghost"] }
        [⟨"Hi", [("fr", "Salut!")]⟩]) ∧
    (∀ key info acc lang v, lang ∉ info.languages →
      mergePair key info acc (lang, v) = Except.ok acc)) :=
  ⟨Or.inl (by decide),
    merge_skips_out_of_contract _ _ ⟨"Ghost", [("fr", "Boo")]⟩ [⟨"Hi", [("fr", "Salut!")]⟩]
      (Or.inl (by decide))⟩

/-- C5: the original input catalog is never mutated: the deep copy is
value-wise identical to the input (so the working copy starts as an
independent equal value), and the catalog the pipeline reports as original
is exactly the input, untouched by deletions, normalizations and merge
writes, which all act on the copy. -/
theorem original_catalog_unchanged (x : XCStrings) (tl : List String)
    (src : Option String) (response : List TranslationResult) :
    jsonDeepCopy x = x ∧
    ∀ out, runPipeline x tl src response = Except.ok out → out.originalCatalog = x := by
  refine ⟨jsonDeepCopy_eq x, ?_⟩
  intro out hout
  unfold runPipeline at hout
  by_cases hlen :
      (analyzeStringsForTranslation x tl src).translationRequests.length > 0
  · rw [if_pos hlen] at hout
    cases hm : mergeBatchResponse
        (analyzeStringsForTranslation x tl src).stringTranslationMap
        (initialMergeState (analyzeStringsForTranslation x tl src)) response with
    | error e =>
      rw [hm] at hout
      cases hout
    | ok st =>
      rw [hm] at hout
      injection hout with h
      rw [← h]
  · rw [if_neg hlen] at hout
    injection hout with h
    rw [← h]

/-- Witness for C5: a full analyze-then-merge run over a needs-review entry
leaves the original catalog value intact. -/
theorem original_catalog_unchanged_witness :
    runPipeline ⟨some "en", [("Hi", wReviewEntry)]⟩ ["fr"] none [⟨"Hi", [("fr", "Salut!")]⟩] =
      Except.ok
        { originalCatalog := ⟨some "en", [("Hi", wReviewEntry)]⟩
          finalCatalog :=
            ⟨some "en",
              [("Hi", { comment := none, shouldTranslate := none, extractionState := none,
                        localizations :=
                          some [("fr", ⟨some ⟨some "translated", some "Salut!"⟩⟩)] })]⟩
          added := []
          updated := ["Hi (fr)"]
          staleRemoved := []
          warnings := [] } ∧
    ({ originalCatalog := ⟨some "en", [("Hi", wReviewEntry)]⟩
       finalCatalog :=
         ⟨some "en",
           [("Hi", { comment := none, shouldTranslate := none, extractionState := none,
                     localizations :=
                       some [("fr", ⟨some ⟨some "translated", some "Salut!"⟩⟩)] })]⟩
       added := []
       updated := ["Hi (fr)"]
       staleRemoved := []
       warnings := [] } : PipelineOutcome).originalCatalog =
      ⟨some "en", [("Hi", wReviewEntry)]⟩ :=
  ⟨rfl,
    (original_catalog_unchanged ⟨some "en", [("Hi", wReviewEntry)]⟩ ["fr"] none
      [⟨"Hi", [("fr", "Salut!")]⟩]).2 _ rfl⟩

/-! ## Ledger invariants of the merge loop (claim C8) -/

/-- Whether an entry has a localization binding for a language. -/
def locKeyPresent (e : StringEntry) (lang : String) : Bool :=
  ((e.localizations.getD []).lookup lang).isSome

theorem lookup_isSome_map_keyed {α β : Type} (f : String × α → String × β)
    (hf : ∀ p, (f p).1 = p.1) (l : List (String × α)) (k : String) :
    ((l.map f).lookup k).isSome = (l.lookup k).isSome := by
  induction l with
  | nil => rfl
  | cons p t ih =>
    rw [List.map_cons]
    cases p with
    | mk pk pv =>
      cases hfp : f (pk, pv) with
      | mk qk qv =>
        have h1 : qk = pk := by
          have := hf (pk, pv)
          rw [hfp] at this
          simpa using this
        subst h1
        simp only [List.lookup]
        cases hc : (k == qk) with
        | true => rfl
        | false => exact ih

/-- A successful `setStringUnit` write preserves which languages have a
localization binding (it never creates one). -/
theorem setStringUnit_locKeyPresent {e : StringEntry} {lang value : String}
    {e' : StringEntry} (h : setStringUnit e lang value = some e') :
    ∀ l, locKeyPresent e' l = locKeyPresent e l := by
  cases hlocs : e.localizations with
  | none =>
    simp only [setStringUnit, hlocs] at h
    exact Option.noConfusion h
  | some locs =>
    cases hl : locs.lookup lang with
    | none =>
      simp only [setStringUnit, hlocs, hl] at h
      exact Option.noConfusion h
    | some l0 =>
      simp only [setStringUnit, hlocs, hl, Option.some.injEq] at h
      intro l
      rw [← h]
      unfold locKeyPresent
      show ((updateLocalization locs lang _).lookup l).isSome =
        ((e.localizations.getD []).lookup l).isSome
      rw [hlocs]
      unfold updateLocalization
      apply lookup_isSome_map_keyed
      intro p
      by_cases hp : (p.1 == lang) = true
      · simp [hp]
      · simp [hp]

/-- A successful `setStringUnit` write requires the binding to exist. -/
theorem setStringUnit_present {e : StringEntry} {lang value : String}
    {e' : StringEntry} (h : setStringUnit e lang value = some e') :
    locKeyPresent e lang = true := by
  cases hlocs : e.localizations with
  | none =>
    simp only [setStringUnit, hlocs] at h
    exact Option.noConfusion h
  | some locs =>
    cases hl : locs.lookup lang with
    | none =>
      simp only [setStringUnit, hlocs, hl] at h
      exact Option.noConfusion h
    | some l0 =>
      unfold locKeyPresent
      rw [hlocs]
      rw [Option.getD_some, hl]
      rfl

/-- What one successful pair application can do to the accumulator. -/
theorem mergePair_ok {key : String} {info : TranslationNeedRecord}
    {acc acc' : StringEntry × List String × List String} {pair : String × String}
    (h : mergePair key info acc pair = Except.ok acc') :
    (∀ l, locKeyPresent acc'.1 l = locKeyPresent acc.1 l) ∧
    (acc'.2.1 = acc.2.1 ∨
      ((info.isNew.lookup pair.1).getD false = true ∧ locKeyPresent acc.1 pair.1 = true ∧
        acc'.2.1 = acc.2.1 ++ [changeKey key pair.1])) ∧
    (acc'.2.2 = acc.2.2 ∨
      (pair.1 ∈ info.languages ∧ acc'.2.2 = acc.2.2 ++ [changeKey key pair.1])) := by
  unfold mergePair at h
  by_cases hc : (info.languages.contains pair.1) = true
  · rw [if_pos hc] at h
    cases hs : setStringUnit acc.1 pair.1 pair.2 with
    | none =>
      simp only [hs] at h
      exact Except.noConfusion h
    | some e' =>
      simp only [hs] at h
      have hpres := setStringUnit_locKeyPresent hs
      have hp1 := setStringUnit_present hs
      have hmem : pair.1 ∈ info.languages := by simpa using hc
      by_cases hn : (info.isNew.lookup pair.1).getD false = true
      · rw [if_pos hn] at h
        injection h with h'
        subst h'
        exact ⟨fun l => hpres l, Or.inr ⟨hn, hp1, rfl⟩, Or.inl rfl⟩
      · rw [if_neg hn] at h
        injection h with h'
        subst h'
        exact ⟨fun l => hpres l, Or.inl rfl, Or.inr ⟨hmem, rfl⟩⟩
  · rw [if_neg hc] at h
    injection h with h'
    subst h'
    exact ⟨fun l => rfl, Or.inl rfl, Or.inl rfl⟩

/-- Invariants of the inner pair loop: binding presence is unchanged, the
`added` ledger cannot grow when every `isNew` language lacks its binding,
and `updated` grows only by in-scope identifiers of this key. -/
theorem mergePairs_fold {key : String} {info : TranslationNeedRecord} :
    ∀ (pairs : List (String × String)) (acc acc' : StringEntry × List String × List String),
      List.foldlM (mergePair key info) acc pairs = Except.ok acc' →
      (∀ l, locKeyPresent acc'.1 l = locKeyPresent acc.1 l) ∧
      ((∀ lang, (info.isNew.lookup lang).getD false = true →
          locKeyPresent acc.1 lang = false) → acc'.2.1 = acc.2.1) ∧
      (∀ s ∈ acc'.2.2, s ∈ acc.2.2 ∨ ∃ lang ∈ info.languages, s = changeKey key lang)
  | [], acc, acc', h => by
    have heq : acc = acc' := by injection h
    subst heq
    exact ⟨fun l => rfl, fun _ => rfl, fun s hs => Or.inl hs⟩
  | pr :: rest, acc, acc', h => by
    have hcons : List.foldlM (mergePair key info) acc (pr :: rest) =
        (mergePair key info acc pr).bind
          (fun a => List.foldlM (mergePair key info) a rest) := rfl
    rw [hcons] at h
    cases hstep : mergePair key info acc pr with
    | error e =>
      rw [hstep] at h
      cases h
    | ok acc1 =>
      rw [hstep] at h
      have h' : List.foldlM (mergePair key info) acc1 rest = Except.ok acc' := h
      obtain ⟨hp1, ha1, hu1⟩ := mergePair_ok hstep
      obtain ⟨hp2, ha2, hu2⟩ := mergePairs_fold rest acc1 acc' h'
      refine ⟨fun l => (hp2 l).trans (hp1 l), ?_, ?_⟩
      · intro habs
        have habs1 : ∀ lang, (info.isNew.lookup lang).getD false = true →
            locKeyPresent acc1.1 lang = false := by
          intro lang hl
          rw [hp1 lang]
          exact habs lang hl
        have hstay : acc1.2.1 = acc.2.1 := by
          rcases ha1 with h0 | ⟨hn, hp, _⟩
          · exact h0
          · rw [habs pr.1 hn] at hp
            cases hp
        rw [ha2 habs1, hstay]
      · intro s hs
        rcases hu2 s hs with hs1 | hex
        · rcases hu1 with h0 | ⟨hm, happ⟩
          · rw [h0] at hs1
            exact Or.inl hs1
          · rw [happ] at hs1
            rcases List.mem_append.mp hs1 with h2 | h3
            · exact Or.inl h2
            · exact Or.inr ⟨pr.1, hm, by simpa using h3⟩
        · exact Or.inr hex

theorem lookup_updateCatalogEntry (strings : List (String × StringEntry)) (key : String)
    (e' : StringEntry) (k : String) :
    (updateCatalogEntry strings key e').lookup k =
      if (k == key) = true then (strings.lookup k).map (fun _ => e')
      else strings.lookup k := by
  induction strings with
  | nil =>
    by_cases hk : (k == key) = true <;> simp [updateCatalogEntry, List.lookup, hk]
  | cons p t ih =>
    cases p with
    | mk pk pv =>
      unfold updateCatalogEntry
      rw [List.map_cons]
      by_cases hpk : (pk == key) = true
      · simp only [hpk, if_true]
        by_cases hkp : (k == pk) = true
        · have h1 : k = pk := eq_of_beq hkp
          have h2 : pk = key := eq_of_beq hpk
          have hkk : (k == key) = true := beq_iff_eq.mpr (h1.trans h2)
          simp only [List.lookup, hkp, hkk, if_true]
          rfl
        · simp only [List.lookup, hkp]
          exact ih
      · simp only [hpk, Bool.false_eq_true, if_false]
        by_cases hkp : (k == pk) = true
        · have h1 : k = pk := eq_of_beq hkp
          have hkk : (k == key) = false := by
            apply beq_eq_false_iff_ne.mpr
            intro hc
            rw [← hc] at hpk
            exact hpk (beq_iff_eq.mpr h1.symm)
          simp only [List.lookup, hkp, hkk, Bool.false_eq_true, if_false]
        · simp only [List.lookup, hkp]
          exact ih

/-- In a merge state coming from the analyzer, a language recorded
`isNew = true` for a key has no localization binding in that key's catalog
entry. -/
def newLangAbsent (needIndex : List (String × TranslationNeedRecord)) (c : XCStrings) :
    Prop :=
  ∀ k info, needIndex.lookup k = some info →
    ∀ lang, (info.isNew.lookup lang).getD false = true →
      ∀ e, c.strings.lookup k = some e → locKeyPresent e lang = false

/-- What one successful response-item merge can do to the state. -/
theorem mergeTranslationResult_ok {needIndex : List (String × TranslationNeedRecord)}
    {st st' : MergeState} {tr : TranslationResult}
    (h : mergeTranslationResult needIndex st tr = Except.ok st') :
    (∀ k e', st'.catalog.strings.lookup k = some e' →
      ∃ e, st.catalog.strings.lookup k = some e ∧
        ∀ l, locKeyPresent e' l = locKeyPresent e l) ∧
    (newLangAbsent needIndex st.catalog → st'.added = st.added) ∧
    (∀ s ∈ st'.updated, s ∈ st.updated ∨
      ∃ k info lang, needIndex.lookup k = some info ∧ lang ∈ info.languages ∧
        s = changeKey k lang) := by
  unfold mergeTranslationResult at h
  cases hcat : st.catalog.strings.lookup tr.key with
  | none =>
    simp only [hcat] at h
    have hst : st' = { st with
        warnings := st.warnings ++ ["Received translation for unknown key: " ++ tr.key] } := by
      injection h with h'
      exact h'.symm
    subst hst
    exact ⟨fun k e' hke => ⟨e', hke, fun l => rfl⟩, fun _ => rfl, fun s hs => Or.inl hs⟩
  | some entry =>
    simp only [hcat] at h
    cases hidx : needIndex.lookup tr.key with
    | none =>
      simp only [hidx] at h
      have hst : st' = { st with
          warnings := st.warnings ++ ["Received translation for unknown key: " ++ tr.key] } := by
        injection h with h'
        exact h'.symm
      subst hst
      exact ⟨fun k e' hke => ⟨e', hke, fun l => rfl⟩, fun _ => rfl, fun s hs => Or.inl hs⟩
    | some info =>
      simp only [hidx] at h
      cases hfold : List.foldlM (mergePair tr.key info) (entry, st.added, st.updated)
          tr.translations with
      | error e =>
        simp only [hfold, Except.map] at h
        exact Except.noConfusion h
      | ok acc =>
        simp only [hfold, Except.map] at h
        injection h with h'
        have hcatst : st'.catalog.strings = updateCatalogEntry st.catalog.strings tr.key acc.1 := by
          rw [← h']
        have haddst : st'.added = acc.2.1 := by
          rw [← h']
        have hupdst : st'.updated = acc.2.2 := by
          rw [← h']
        obtain ⟨hpres, hadd, hupd⟩ := mergePairs_fold tr.translations _ acc hfold
        refine ⟨?_, ?_, ?_⟩
        · intro k e' hke
          rw [hcatst, lookup_updateCatalogEntry] at hke
          by_cases hk : (k == tr.key) = true
          · rw [if_pos hk] at hke
            cases horig : st.catalog.strings.lookup k with
            | none =>
              rw [horig] at hke
              cases hke
            | some e0 =>
              rw [horig] at hke
              injection hke with he
              refine ⟨e0, rfl, ?_⟩
              intro l
              rw [← he]
              have hkk : k = tr.key := eq_of_beq hk
              rw [hkk, hcat] at horig
              injection horig with he0
              rw [← he0]
              exact hpres l
          · rw [if_neg hk] at hke
            exact ⟨e', hke, fun l => rfl⟩
        · intro habs
          rw [haddst]
          apply hadd
          intro lang hl
          exact habs tr.key info hidx lang hl entry hcat
        · intro s hs
          rw [hupdst] at hs
          rcases hupd s hs with h1 | ⟨lang, hm, he⟩
          · exact Or.inl h1
          · exact Or.inr ⟨tr.key, info, lang, hidx, hm, he⟩

/-- One merged item preserves the absence invariant. -/
theorem mergeTranslationResult_preserves {needIndex : List (String × TranslationNeedRecord)}
    {st st' : MergeState} {tr : TranslationResult}
    (h : mergeTranslationResult needIndex st tr = Except.ok st')
    (hinv : newLangAbsent needIndex st.catalog) :
    newLangAbsent needIndex st'.catalog := by
  intro k info hk lang hl e' he'
  obtain ⟨hcatlem, _, _⟩ := mergeTranslationResult_ok h
  rcases hcatlem k e' he' with ⟨e, he, hpl⟩
  rw [hpl lang]
  exact hinv k info hk lang hl e he

/-- Invariants of the whole merge loop. -/
theorem mergeBatch_fold {needIndex : List (String × TranslationNeedRecord)} :
    ∀ (response : List TranslationResult) (st st' : MergeState),
      mergeBatchResponse needIndex st response = Except.ok st' →
      newLangAbsent needIndex st.catalog →
      st'.added = st.added ∧
      (∀ s ∈ st'.updated, s ∈ st.updated ∨
        ∃ k info lang, needIndex.lookup k = some info ∧ lang ∈ info.languages ∧
          s = changeKey k lang)
  | [], st, st', h, _ => by
    have heq : st = st' := by injection h
    subst heq
    exact ⟨rfl, fun s hs => Or.inl hs⟩
  | tr :: rest, st, st', h, hinv => by
    rw [mergeBatch_cons] at h
    cases hstep : mergeTranslationResult needIndex st tr with
    | error e =>
      rw [hstep] at h
      cases h
    | ok st1 =>
      rw [hstep] at h
      have h' : mergeBatchResponse needIndex st1 rest = Except.ok st' := h
      obtain ⟨_, hadd1, hupd1⟩ := mergeTranslationResult_ok hstep
      have hinv1 := mergeTranslationResult_preserves hstep hinv
      obtain ⟨hadd2, hupd2⟩ := mergeBatch_fold rest st1 st' h' hinv1
      refine ⟨by rw [hadd2, hadd1 hinv], ?_⟩
      intro s hs
      rcases hupd2 s hs with h1 | hex
      · exact hupd1 s h1
      · exact Or.inr hex

/-- The analyzer's output establishes the absence invariant: a language it
marks `isNew = true` has no localization binding in the working catalog. -/
theorem analysis_newLangAbsent (x : XCStrings) (tl : List String) (src : Option String)
    (hnd : (x.strings.map Prod.fst).Nodup) :
    newLangAbsent (analyzeStringsForTranslation x tl src).stringTranslationMap
      (analyzeStringsForTranslation x tl src).modifiedXcstringsData := by
  intro k info hk lang hl e' he'
  rw [analyze_stringTranslationMap] at hk
  have hmemrec := mem_of_lookup_eq_some hk
  rcases List.mem_filterMap.mp hmemrec with ⟨p, hp, hfp⟩
  cases p with
  | mk pk pe =>
    have hkey : k = pk := by
      have := entryNeedRecord_key hfp
      simpa using this
    subst hkey
    unfold entryNeedRecord at hfp
    by_cases hemit : emitsRequest tl pe = true
    · rw [if_pos hemit] at hfp
      injection hfp with hfp'
      have hinfo : info = { languages := entryLanguagesNeeded tl pe
                            isNew := entryIsNewMap tl pe } := by
        have := (Prod.mk.injEq _ _ _ _).mp hfp'
        exact this.2.symm
      subst hinfo
      simp only [entryIsNewMap] at hl
      rw [lookup_map_pair] at hl
      by_cases hmemlang : lang ∈ entryLanguagesNeeded tl pe
      · rw [if_pos hmemlang] at hl
        have hnone : (materializedLocs pe).lookup lang = none := by
          have := Option.getD_some ▸ hl
          simp at this
          exact Option.isNone_iff_eq_none.mp (by simpa using this)
        have hstale : isStale pe = false := by
          unfold emitsRequest at hemit
          rw [Bool.and_eq_true, Bool.and_eq_true] at hemit
          have hb := hemit.1.1
          cases hs2 : isStale pe
          · rfl
          · rw [hs2] at hb
            exact absurd hb (by decide)
        have hopt : isOptedOut pe = false := by
          unfold emitsRequest at hemit
          rw [Bool.and_eq_true, Bool.and_eq_true] at hemit
          have hb := hemit.1.2
          cases hs2 : isOptedOut pe
          · rfl
          · rw [hs2] at hb
            exact absurd hb (by decide)
        have hmod := modified_lookup x tl src hnd hp
        rw [processEntry_active hstale hopt] at hmod
        rw [hmod] at he'
        injection he' with hee
        rw [← hee]
        unfold locKeyPresent
        show (((some (materializedLocs pe)).getD []).lookup lang).isSome = false
        rw [Option.getD_some, hnone]
        rfl
      · rw [if_neg hmemlang] at hl
        cases hl
    · rw [if_neg hemit] at hfp
      cases hfp

/-- C8: ledger disjointness: after a successful merge, `added` and `updated`
never contain the same identifier, and every identifier in either
corresponds to a `(key, language)` pair whose language is in that key's
`languagesNeeded`. -/
theorem ledger_disjoint_and_in_scope (x : XCStrings) (tl : List String)
    (src : Option String) (response : List TranslationResult) (st' : MergeState)
    (hnd : (x.strings.map Prod.fst).Nodup)
    (hok : mergeBatchResponse (analyzeStringsForTranslation x tl src).stringTranslationMap
        (initialMergeState (analyzeStringsForTranslation x tl src)) response =
      Except.ok st') :
    (∀ s, s ∈ st'.added → s ∉ st'.updated) ∧
    (∀ s, s ∈ st'.added ∨ s ∈ st'.updated →
      ∃ k info lang,
        (analyzeStringsForTranslation x tl src).stringTranslationMap.lookup k = some info ∧
        lang ∈ info.languages ∧ s = changeKey k lang) := by
  have hinv : newLangAbsent (analyzeStringsForTranslation x tl src).stringTranslationMap
      (initialMergeState (analyzeStringsForTranslation x tl src)).catalog :=
    analysis_newLangAbsent x tl src hnd
  obtain ⟨hadd, hupd⟩ := mergeBatch_fold response _ st' hok hinv
  have hadded : st'.added = [] := by
    rw [hadd]
    show (analyzeStringsForTranslation x tl src).added = []
    exact analyze_added x tl src
  have hupdated0 : (initialMergeState (analyzeStringsForTranslation x tl src)).updated = [] :=
    analyze_updated x tl src
  refine ⟨?_, ?_⟩
  · intro s hs
    rw [hadded] at hs
    cases hs
  · intro s hs
    rcases hs with hs | hs
    · rw [hadded] at hs
      cases hs
    · rcases hupd s hs with h1 | hex
      · rw [hupdated0] at h1
        cases h1
      · exact hex

/-- The merge state reached in the C8 witness run. -/
def wMergedHiState : MergeState :=
  { catalog :=
      ⟨some "en",
        [("Hi", { comment := none, shouldTranslate := none, extractionState := none,
                  localizations :=
                    some [("fr", ⟨some ⟨some "translated", some "Salut!"⟩⟩)] })]⟩
    added := []
    updated := ["Hi (fr)"]
    warnings := [] }

/-- Witness for C8: a successful merge of one needs-review update. -/
theorem ledger_disjoint_and_in_scope_witness :
    (((⟨some "en", [("Hi", wReviewEntry)]⟩ : XCStrings).strings.map Prod.fst).Nodup ∧
      mergeBatchResponse
        (analyzeStringsForTranslation ⟨some "en", [("Hi", wReviewEntry)]⟩
          ["fr"] none).stringTranslationMap
        (initialMergeState (analyzeStringsForTranslation ⟨some "en", [("Hi", wReviewEntry)]⟩
          ["fr"] none))
        [⟨"Hi", [("fr", "Salut!")]⟩] =
      Except.ok wMergedHiState) ∧
    ((∀ s, s ∈ wMergedHiState.added → s ∉ wMergedHiState.updated) ∧
      (∀ s, s ∈ wMergedHiState.added ∨ s ∈ wMergedHiState.updated →
        ∃ k info lang,
          (analyzeStringsForTranslation ⟨some "en", [("Hi", wReviewEntry)]⟩
            ["fr"] none).stringTranslationMap.lookup k = some info ∧
          lang ∈ info.languages ∧ s = changeKey k lang)) :=
  ⟨⟨by decide, rfl⟩,
    ledger_disjoint_and_in_scope ⟨some "en", [("Hi", wReviewEntry)]⟩ ["fr"] none
      [⟨"Hi", [("fr", "Salut!")]⟩] wMergedHiState (by decide) rfl⟩

end VibeLocalizer
